import Mathlib

/-!
Shallow embedding of the websocket transcription proxy in
`backend/app/main.py` (functions `_normalize_lang`, `ws_transcribe`,
and its inner coroutines `forward_audio` and `relay_transcripts`).

Modelling conventions:
- Python strings are Lean `String`s; `str.strip()` is `String.trim`,
  `str.lower()` / `str.upper()` are `String.toLower` / `String.toUpper`
  (the Python versions also handle non-ASCII whitespace/case; the claims
  only exercise ASCII data, where the two agree).
- A possibly-absent query parameter or attribute is `Option String`.
- Logging calls are effect-free and are omitted.
- Exceptions are modelled explicitly: a computation that can raise
  returns its result together with an `Option String` (the raised
  exception's message), and `try/except/finally` blocks are translated
  into the corresponding explicit case analysis.
-/

namespace MedAI

/-- Python `str.lower()` (ASCII model, matching `String.toLower` but
kernel-computable). -/
def strLower (s : String) : String := String.mk (s.data.map Char.toLower)

/-- Python `str.upper()` (ASCII model, matching `String.toUpper` but
kernel-computable). -/
def strUpper (s : String) : String := String.mk (s.data.map Char.toUpper)

/-- Python `str.strip()` (ASCII-whitespace model, matching `String.trim`
but kernel-computable). -/
def strTrim (s : String) : String :=
  String.mk (((s.data.dropWhile Char.isWhitespace).reverse.dropWhile Char.isWhitespace).reverse)

/-- Python `int(s)` digit run after the optional sign: one digit followed by
digits optionally separated by single underscores (`"1_0"` parses, `"1__0"`,
`"_1"` and `"1_"` do not). -/
def pyDigitsRest : List Char → Bool
  | [] => true
  | '_' :: c :: cs => c.isDigit && pyDigitsRest cs
  | c :: cs => c.isDigit && pyDigitsRest cs

/-- Whether a (sign-stripped) character list is a valid Python `int` body. -/
def pyIntBody : List Char → Bool
  | [] => false
  | c :: cs => c.isDigit && pyDigitsRest cs

/-- Numeric value of a digit run, ignoring underscores. -/
def pyDigitsVal (cs : List Char) : Nat :=
  (cs.filter (fun c => c ≠ '_')).foldl (fun a c => a * 10 + (c.toNat - '0'.toNat)) 0

/-- Model of Python `int(s)` on a string argument: strip surrounding
whitespace, allow one leading `+`/`-`, then a digit run.  Returns `none`
where Python raises `ValueError`.  (Python also accepts non-ASCII digits;
the claims only exercise ASCII input.) -/
def pyParseInt (s : String) : Option Int :=
  match (strTrim s).data with
  | '+' :: rest => if pyIntBody rest then some (pyDigitsVal rest) else none
  | '-' :: rest => if pyIntBody rest then some (-(pyDigitsVal rest : Int)) else none
  | rest => if pyIntBody rest then some (pyDigitsVal rest) else none

/-- `_normalize_lang` from `main.py`: expand simple language tags to the
supported codes, defaulting to `"fr-FR"`.  `none` models Python `None`;
the `lang = ""` test models Python's falsiness of the empty string in
`if not lang`. -/
def normalize_lang : Option String → String
  | none => "fr-FR"
  | some lang =>
    if lang = "" then "fr-FR"
    else
      let l := strLower (strTrim lang)
      if l = "fr" ∨ l = "fr-fr" ∨ l = "fr_fr" then "fr-FR"
      else if l = "en" ∨ l = "en-us" ∨ l = "en_us" then "en-US"
      else "fr-FR"

/-- The `sample_rate` normalization in `ws_transcribe`:
`try: sample_rate = int(params.get("sample_rate") or 16000)
 except Exception: sample_rate = 16000`.
A missing or empty parameter is falsy, so `int` is applied to `16000`
itself; otherwise `int` is applied to the raw string and a parse failure
falls back to `16000`. -/
def normalize_sample_rate (raw : Option String) : Int :=
  match raw with
  | none => 16000
  | some s =>
    if s = "" then 16000
    else
      match pyParseInt s with
      | some n => n
      | none => 16000

/-- The `encoding` normalization in `ws_transcribe`:
`encoding = (params.get("encoding") or "pcm").lower()` followed by the
membership check against `("pcm", "ogg-opus")`. -/
def normalize_encoding (raw : Option String) : String :=
  let base := match raw with
    | none => "pcm"
    | some s => if s = "" then "pcm" else s
  let e := strLower base
  if e = "pcm" ∨ e = "ogg-opus" then e else "pcm"

/-- The validated session configuration assembled at the top of
`ws_transcribe` (spec: SessionConfig). -/
structure SessionConfig where
  languageCode : String
  sampleRateHz : Int
  encoding : String
deriving DecidableEq

/-- Parameter normalization as performed by `ws_transcribe` lines 165-172
(spec: ParamNormalizer). -/
def normalize_params (lang sr enc : Option String) : SessionConfig :=
  { languageCode := normalize_lang lang
    sampleRateHz := normalize_sample_rate sr
    encoding := normalize_encoding enc }

/-- Session counters (the `stats` dict in `ws_transcribe`; spec:
SessionStats). -/
structure Stats where
  framesIn : Nat
  bytesIn : Nat
  partialsOut : Nat
  finalsOut : Nat
deriving DecidableEq

/-- The zero-initialized `stats` dict. -/
def Stats.init : Stats := ⟨0, 0, 0, 0⟩

/-- One message returned by `websocket.receive()` (spec: InboundFrame):
`{"type":"websocket.disconnect"}`, a frame with a non-None `"bytes"` key,
or a frame with a non-None `"text"` key.  Audio bytes are modelled as a
list of byte values. -/
inductive InFrame
  | binary (b : List Nat)
  | text (s : String)
  | disconnect
deriving DecidableEq

/-- One iteration's outcome at the suspension points of `forward_audio`'s
loop body: the receive yields a frame (and, for binary frames, the
subsequent `send_audio_event` succeeds); the receive itself raises; or
the receive yields a binary frame and the `send_audio_event` push raises.
This enumerates every way one pass through the loop body can go. -/
inductive LoopEvent
  | recv (f : InFrame)
  | recvExn (e : String)
  | sendExn (b : List Nat) (e : String)
deriving DecidableEq

/-- State of `stream.input_stream` as seen from `forward_audio`: the audio
chunks pushed so far and how many times `end_stream` has been called. -/
structure SinkState where
  pushed : List (List Nat)
  closeCalls : Nat
deriving DecidableEq

/-- How `forward_audio`'s inner `while True:` loop exited.  `exhausted` is
a modelling artifact: the finite event trace ended without a terminating
event (in the running system the loop would still be awaiting the next
frame). -/
inductive ExitReason
  | disconnect
  | endSignal
  | exhausted
  | raised (e : String)
deriving DecidableEq

/-- The END test in `forward_audio`: `msg["text"].strip().upper() == "END"`. -/
def isEndSignal (s : String) : Bool := strUpper (strTrim s) = "END"

/-- The body of `forward_audio`'s `try:` block — the `while True:` receive
loop, translated frame case by frame case (logging omitted):
disconnect breaks; a binary frame bumps `frames_in`/`bytes_in` *before*
the push (so a failing push still counts the frame) and then pushes the
chunk; a text frame breaks exactly when its trimmed content upper-cases
to "END" and is ignored otherwise; an exception from receive or push
exits the loop with that exception. -/
def fwdLoop : List LoopEvent → Stats → SinkState → Stats × SinkState × ExitReason
  | [], st, sk => (st, sk, ExitReason.exhausted)
  | LoopEvent.recvExn e :: _, st, sk => (st, sk, ExitReason.raised e)
  | LoopEvent.recv InFrame.disconnect :: _, st, sk => (st, sk, ExitReason.disconnect)
  | LoopEvent.recv (InFrame.binary b) :: rest, st, sk =>
      fwdLoop rest
        { st with framesIn := st.framesIn + 1, bytesIn := st.bytesIn + b.length }
        { sk with pushed := sk.pushed ++ [b] }
  | LoopEvent.recv (InFrame.text s) :: rest, st, sk =>
      if isEndSignal s then (st, sk, ExitReason.endSignal) else fwdLoop rest st sk
  | LoopEvent.sendExn b e :: _, st, sk =>
      ({ st with framesIn := st.framesIn + 1, bytesIn := st.bytesIn + b.length },
       sk, ExitReason.raised e)

/-- `stream.input_stream.end_stream()`: records the close call; raises when
`closeFails` is set. -/
def end_stream (closeFails : Bool) (sk : SinkState) : SinkState × Option String :=
  ({ sk with closeCalls := sk.closeCalls + 1 },
   if closeFails then some "end-stream-error" else none)

/-- The exception (if any) that escapes the loop body. -/
def ExitReason.exn : ExitReason → Option String
  | ExitReason.raised e => some e
  | _ => none

/-- Result of one complete run of `forward_audio`: final counters, final
sink state, how the loop exited, and the exception (if any) propagating
out of the coroutine. -/
structure FwdOutcome where
  stats : Stats
  sink : SinkState
  exit : ExitReason
  raised : Option String
deriving DecidableEq

/-- `forward_audio` from `ws_transcribe`: run the receive loop; then the
`finally:` block runs `try: await stream.input_stream.end_stream()
except Exception: pass` — the close is attempted unconditionally and its
own failure is discarded — and the loop's exception, if any, resumes
propagating after the `finally:` block completes. -/
def forward_audio (events : List LoopEvent) (closeFails : Bool)
    (st : Stats) (sk : SinkState) : FwdOutcome :=
  let r := fwdLoop events st sk
  let closed := end_stream closeFails r.2.1
  { stats := r.1, sink := closed.1, exit := r.2.2, raised := r.2.2.exn }

/-- Number of binary audio frames carried by one loop event (a frame whose
push failed was still received and counted by the code). -/
def binFramesOf : LoopEvent → Nat
  | LoopEvent.recv (InFrame.binary _) => 1
  | LoopEvent.sendExn _ _ => 1
  | _ => 0

/-- Number of audio bytes carried by one loop event. -/
def binBytesOf : LoopEvent → Nat
  | LoopEvent.recv (InFrame.binary b) => b.length
  | LoopEvent.sendExn b _ => b.length
  | _ => 0

/-- The prefix of the event trace actually consumed by the receive loop:
everything up to and including the first disconnect, END text frame, or
exception (or the whole trace if none occurs). -/
def consumedEvents : List LoopEvent → List LoopEvent
  | [] => []
  | LoopEvent.recvExn e :: _ => [LoopEvent.recvExn e]
  | LoopEvent.recv InFrame.disconnect :: _ => [LoopEvent.recv InFrame.disconnect]
  | LoopEvent.recv (InFrame.binary b) :: rest =>
      LoopEvent.recv (InFrame.binary b) :: consumedEvents rest
  | LoopEvent.recv (InFrame.text s) :: rest =>
      if isEndSignal s then [LoopEvent.recv (InFrame.text s)]
      else LoopEvent.recv (InFrame.text s) :: consumedEvents rest
  | LoopEvent.sendExn b e :: _ => [LoopEvent.sendExn b e]

/-- One recognition alternative (`alt` in `relay_transcripts`); its
`transcript` attribute may be `None`. -/
structure TranscriptAlt where
  transcript : Option String
deriving DecidableEq

/-- One recognition result (`res` in `relay_transcripts`).  `partialFlag`
models the `is_partial` attribute read by
`getattr(res, "is_partial", False)` — a missing attribute reads as
`False`, so the attribute is modelled as an always-present Bool.
`alternatives` may be `None` (`res.alternatives or []`). -/
structure RecResult where
  partialFlag : Bool
  alternatives : Option (List TranscriptAlt)
deriving DecidableEq

/-- The `event.transcript` payload of a `TranscriptEvent`; `results` may be
`None` (`event.transcript.results or []`). -/
structure TranscriptData where
  results : Option (List RecResult)
deriving DecidableEq

/-- One event from `stream.output_stream`: either a `TranscriptEvent`
carrying transcript data, or any other event type (which the code's
`isinstance` check skips). -/
inductive UpEvent
  | transcriptEvent (t : TranscriptData)
  | other
deriving DecidableEq

/-- One JSON payload sent by `relay_transcripts` (spec: OutboundMessage). -/
structure OutMsg where
  type : String
  text : String
  language : String
deriving DecidableEq

/-- Python `x or []` for a possibly-`None` list attribute. -/
def orEmptyList {α : Type} : Option (List α) → List α
  | none => []
  | some xs => xs

/-- Python `x or ""` for a possibly-`None` string attribute. -/
def orEmptyStr : Option String → String
  | none => ""
  | some s => s

/-- The counter update in `relay_transcripts`: `stats["finals_out"] += 1`
for a final, `stats["partials_out"] += 1` for a partial. -/
def bumpOut (isFinal : Bool) (st : Stats) : Stats :=
  if isFinal then { st with finalsOut := st.finalsOut + 1 }
  else { st with partialsOut := st.partialsOut + 1 }

/-- The inner `for alt in (res.alternatives or [])` loop of
`relay_transcripts`: trim the transcript (`(alt.transcript or
"").strip()`); skip it when empty; otherwise bump `finals_out` or
`partials_out` and send `{"type": "final"|"partial", "text": text,
"language": lang}` (logging omitted).  Returns the updated stats and the
payloads sent, in send order. -/
def relayAlts (lang : String) (isFinal : Bool) :
    List TranscriptAlt → Stats → Stats × List OutMsg
  | [], st => (st, [])
  | a :: rest, st =>
    let text := strTrim (orEmptyStr a.transcript)
    if text = "" then relayAlts lang isFinal rest st
    else
      let r := relayAlts lang isFinal rest (bumpOut isFinal st)
      (r.1,
       { type := if isFinal then "final" else "partial",
         text := text, language := lang } :: r.2)

/-- The `for res in results` loop of `relay_transcripts`:
`is_final = not getattr(res, "is_partial", False)`. -/
def relayResults (lang : String) : List RecResult → Stats → Stats × List OutMsg
  | [], st => (st, [])
  | r :: rest, st =>
    let a := relayAlts lang (! r.partialFlag) (orEmptyList r.alternatives) st
    let b := relayResults lang rest a.1
    (b.1, a.2 ++ b.2)

/-- `relay_transcripts` from `ws_transcribe`: `async for event in
stream.output_stream`, handling only `TranscriptEvent` instances; each
send is awaited before the next event is consumed, so the payload list is
exactly the send order. -/
def relay_transcripts (lang : String) : List UpEvent → Stats → Stats × List OutMsg
  | [], st => (st, [])
  | UpEvent.other :: rest, st => relay_transcripts lang rest st
  | UpEvent.transcriptEvent t :: rest, st =>
    let a := relayResults lang (orEmptyList t.results) st
    let b := relay_transcripts lang rest a.1
    (b.1, a.2 ++ b.2)

/-- Order-preserving specification of the messages one upstream event
produces, written directly from the spec's wording: flatten results, then
alternatives, keeping only non-blank trimmed transcripts; the kind is
"final" exactly when the result's partial flag is false. -/
def msgsOfAlt (lang : String) (isFinal : Bool) (a : TranscriptAlt) : List OutMsg :=
  let text := strTrim (orEmptyStr a.transcript)
  if text = "" then []
  else [{ type := if isFinal then "final" else "partial",
          text := text, language := lang }]

/-- Order-preserving specification at the event level (see `msgsOfAlt`). -/
def msgsOfEvent (lang : String) : UpEvent → List OutMsg
  | UpEvent.other => []
  | UpEvent.transcriptEvent t =>
    (orEmptyList t.results).flatMap fun r =>
      (orEmptyList r.alternatives).flatMap (msgsOfAlt lang (! r.partialFlag))

/-- Outcome of the STREAMING phase (the `await asyncio.gather(...)` line)
as observed by `ws_transcribe`'s exception handlers: it returned
normally, it raised `WebSocketDisconnect`, or it raised some other
exception. -/
inductive BodyOutcome
  | ok
  | disconnect
  | failure (e : String)
deriving DecidableEq

/-- Observable effects of one run of `ws_transcribe` after the accept:
whether the two streaming coroutines were started, how many error-payload
sends were attempted and whether one was delivered, how many
`websocket.close()` calls were attempted, and the exception (if any)
escaping the handler. -/
structure WsResult where
  tasksStarted : Bool
  errorSendAttempts : Nat
  errorSendDelivered : Bool
  closeAttempts : Nat
  closeDelivered : Bool
  raised : Option String
deriving DecidableEq

/-- The `try/except` skeleton of `ws_transcribe` (spec:
SessionOrchestrator).  `openExn` is the exception raised by
`client.start_stream_transcription`, if any — when it raises, the
`asyncio.gather` line is never reached, so no forwarder/relay task
starts.  `body` is the outcome of the gathered streaming phase.
`except WebSocketDisconnect: return` sends nothing; `except Exception:`
attempts one `send_json({"type": "error", ...})` with its own failure
swallowed (`sendErrFails`), then in a `finally:` attempts one
`websocket.close()` with its failure also swallowed (`closeFails`);
nothing re-raises. -/
def ws_transcribe (openExn : Option String) (body : BodyOutcome)
    (sendErrFails closeFails : Bool) : WsResult :=
  match openExn with
  | some _ =>
    { tasksStarted := false
      errorSendAttempts := 1
      errorSendDelivered := ! sendErrFails
      closeAttempts := 1
      closeDelivered := ! closeFails
      raised := none }
  | none =>
    match body with
    | BodyOutcome.ok =>
      { tasksStarted := true, errorSendAttempts := 0, errorSendDelivered := false,
        closeAttempts := 0, closeDelivered := false, raised := none }
    | BodyOutcome.disconnect =>
      { tasksStarted := true, errorSendAttempts := 0, errorSendDelivered := false,
        closeAttempts := 0, closeDelivered := false, raised := none }
    | BodyOutcome.failure _ =>
      { tasksStarted := true, errorSendAttempts := 1, errorSendDelivered := ! sendErrFails,
        closeAttempts := 1, closeDelivered := ! closeFails, raised := none }

/-- Characterization of `normalize_lang` on present inputs: the result is
`"en-US"` exactly when the trimmed, lower-cased input is one of the English
tags, and `"fr-FR"` otherwise. -/
theorem normalize_lang_char (s : String) :
    normalize_lang (some s) =
      if strLower (strTrim s) ∈ (["en", "en-us", "en_us"] : List String)
      then "en-US" else "fr-FR" := by
  by_cases hs : s = ""
  · subst hs
    decide
  · simp only [normalize_lang, if_neg hs]
    generalize strLower (strTrim s) = l
    rcases Decidable.em (l = "fr" ∨ l = "fr-fr" ∨ l = "fr_fr") with hfr | hfr
    · rw [if_pos hfr]
      rcases hfr with h | h | h <;> subst h <;> decide
    · rw [if_neg hfr]
      rcases Decidable.em (l = "en" ∨ l = "en-us" ∨ l = "en_us") with hen | hen
      · rw [if_pos hen]
        rcases hen with h | h | h <;> subst h <;> decide
      · rw [if_neg hen, if_neg ?hne]
        case hne =>
          intro hmem
          apply hen
          simpa using hmem

/-- C3: `normalize_lang` maps a trimmed input matching one of
{"fr","fr-fr","fr_fr"} case-insensitively to "fr-FR", one matching
{"en","en-us","en_us"} case-insensitively to "en-US", and every other
input — absent included — to "fr-FR"; in particular "FR" ↦ "fr-FR",
"fr_FR" ↦ "fr-FR" and " en " ↦ "en-US". -/
theorem C3_normalize_lang_table :
    normalize_lang none = "fr-FR"
    ∧ (∀ s, strLower (strTrim s) ∈ (["fr", "fr-fr", "fr_fr"] : List String) →
        normalize_lang (some s) = "fr-FR")
    ∧ (∀ s, strLower (strTrim s) ∈ (["en", "en-us", "en_us"] : List String) →
        normalize_lang (some s) = "en-US")
    ∧ (∀ s, strLower (strTrim s) ∉ (["en", "en-us", "en_us"] : List String) →
        normalize_lang (some s) = "fr-FR")
    ∧ normalize_lang (some "FR") = "fr-FR"
    ∧ normalize_lang (some "fr_FR") = "fr-FR"
    ∧ normalize_lang (some " en ") = "en-US" := by
  refine ⟨rfl, ?_, ?_, ?_, by decide, by decide, by decide⟩
  · intro s h
    rw [normalize_lang_char, if_neg]
    intro hmem
    simp only [List.mem_cons, List.mem_singleton, List.not_mem_nil, or_false] at h hmem
    rcases h with h | h | h <;> rw [h] at hmem <;> simp at hmem
  · intro s h
    rw [normalize_lang_char, if_pos h]
  · intro s h
    rw [normalize_lang_char, if_neg h]

/-- Witness for `C3_normalize_lang_table`: each hypothesis discharged at a
concrete input. -/
theorem C3_normalize_lang_table_witness :
    (strLower (strTrim "fr_FR") ∈ (["fr", "fr-fr", "fr_fr"] : List String)
      ∧ normalize_lang (some "fr_FR") = "fr-FR")
    ∧ (strLower (strTrim " en ") ∈ (["en", "en-us", "en_us"] : List String)
      ∧ normalize_lang (some " en ") = "en-US")
    ∧ (strLower (strTrim "xyz") ∉ (["en", "en-us", "en_us"] : List String)
      ∧ normalize_lang (some "xyz") = "fr-FR") :=
  ⟨⟨by decide, C3_normalize_lang_table.2.1 "fr_FR" (by decide)⟩,
   ⟨by decide, C3_normalize_lang_table.2.2.1 " en " (by decide)⟩,
   ⟨by decide, C3_normalize_lang_table.2.2.2.1 "xyz" (by decide)⟩⟩

/-- C4 counterexample: the input "-1" is present and parses as the integer
-1, so the resulting sample rate is -1 — not 16000 and not positive,
refuting "is a positive integer otherwise". -/
theorem C4_sample_rate_not_positive_cex :
    normalize_sample_rate (some "-1") = -1
    ∧ ¬ (0 < normalize_sample_rate (some "-1"))
    ∧ normalize_sample_rate (some "-1") ≠ 16000 := by
  refine ⟨by decide, by decide, by decide⟩

/-- C4 (amended): normalization is total and every field is populated with
a supported value — the language is "fr-FR" or "en-US", the encoding is
the lower-cased input when that is "pcm" or "ogg-opus" and "pcm"
otherwise, and the sample rate is 16000 whenever the input is absent,
empty, or not parseable as a Python integer, and equals the parsed
integer otherwise (which may be zero or negative: this layer imposes no
bound validation). -/
theorem C4_normalize_params_amended : ∀ lang sr enc : Option String,
    ((normalize_params lang sr enc).languageCode = "fr-FR"
      ∨ (normalize_params lang sr enc).languageCode = "en-US")
    ∧ ((normalize_params lang sr enc).encoding = "pcm"
      ∨ (normalize_params lang sr enc).encoding = "ogg-opus")
    ∧ ((sr = none ∨ sr = some "") → (normalize_params lang sr enc).sampleRateHz = 16000)
    ∧ (∀ s, sr = some s → pyParseInt s = none →
        (normalize_params lang sr enc).sampleRateHz = 16000)
    ∧ (∀ s n, sr = some s → s ≠ "" → pyParseInt s = some n →
        (normalize_params lang sr enc).sampleRateHz = n)
    ∧ (∀ s, enc = some s → (strLower s = "pcm" ∨ strLower s = "ogg-opus") →
        (normalize_params lang sr enc).encoding = strLower s)
    ∧ (∀ s, enc = some s → strLower s ≠ "pcm" → strLower s ≠ "ogg-opus" →
        (normalize_params lang sr enc).encoding = "pcm") := by
  intro lang sr enc
  refine ⟨?_, ?_, ?_, ?_, ?_, ?_, ?_⟩
  · show normalize_lang lang = _ ∨ normalize_lang lang = _
    cases lang with
    | none => exact Or.inl rfl
    | some s =>
      rw [normalize_lang_char]
      split
      · exact Or.inr rfl
      · exact Or.inl rfl
  · show normalize_encoding enc = _ ∨ normalize_encoding enc = _
    simp only [normalize_encoding]
    split
    · assumption
    · exact Or.inl rfl
  · rintro (h | h) <;> subst h <;> rfl
  · rintro s rfl hparse
    show normalize_sample_rate (some s) = 16000
    simp only [normalize_sample_rate, hparse]
    split <;> rfl
  · rintro s n rfl hne hparse
    show normalize_sample_rate (some s) = n
    simp only [normalize_sample_rate, hparse, if_neg hne]
  · rintro s rfl hlow
    show normalize_encoding (some s) = strLower s
    by_cases hse : s = ""
    · subst hse
      rcases hlow with h | h <;> exact absurd h (by decide)
    · simp only [normalize_encoding, if_neg hse]
      rw [if_pos hlow]
  · rintro s rfl h1 h2
    show normalize_encoding (some s) = "pcm"
    by_cases hse : s = ""
    · subst hse
      rfl
    · simp only [normalize_encoding, if_neg hse]
      rw [if_neg]
      rintro (h | h) <;> [exact h1 h; exact h2 h]

/-- Witness for `C4_normalize_params_amended`: hypotheses discharged at the
concrete triple (lang="fr", sample_rate="22050", encoding="OGG-OPUS"). -/
theorem C4_normalize_params_amended_witness :
    ("22050" : String) ≠ ""
    ∧ pyParseInt "22050" = some 22050
    ∧ (normalize_params (some "fr") (some "22050") (some "OGG-OPUS")).sampleRateHz = 22050
    ∧ (strLower "OGG-OPUS" = "pcm" ∨ strLower "OGG-OPUS" = "ogg-opus")
    ∧ (normalize_params (some "fr") (some "22050") (some "OGG-OPUS")).encoding = strLower "OGG-OPUS" :=
  ⟨by decide, by decide,
   (C4_normalize_params_amended (some "fr") (some "22050") (some "OGG-OPUS")).2.2.2.2.1
     "22050" 22050 rfl (by decide) (by decide),
   by decide,
   (C4_normalize_params_amended (some "fr") (some "22050") (some "OGG-OPUS")).2.2.2.2.2.1
     "OGG-OPUS" rfl (by decide)⟩

/-- The receive loop itself never calls `end_stream`. -/
theorem fwdLoop_closeCalls (events : List LoopEvent) : ∀ (st : Stats) (sk : SinkState),
    ((fwdLoop events st sk).2.1).closeCalls = sk.closeCalls := by
  induction events with
  | nil => intro st sk; rfl
  | cons e rest ih =>
    intro st sk
    cases e with
    | recvExn e => rfl
    | sendExn b e => rfl
    | recv f =>
      cases f with
      | disconnect => rfl
      | binary b => exact ih _ _
      | text s =>
        show ((if isEndSignal s then (st, sk, ExitReason.endSignal)
               else fwdLoop rest st sk).2.1).closeCalls = sk.closeCalls
        split
        · rfl
        · exact ih _ _

/-- C1: however the receive loop of `forward_audio` exits — normal END
signal, client disconnect, trace end, or an exception raised inside the
loop — `input_stream.end_stream` is invoked exactly once (the loop itself
never closes, the `finally:` closes once); the exception propagating out
of `forward_audio` does not depend on whether the close itself fails, and
any propagated exception is the one the loop exited with, never one from
the close. -/
theorem C1_forward_audio_close_once :
    ∀ (events : List LoopEvent) (closeFails : Bool) (st : Stats) (sk : SinkState),
    (forward_audio events closeFails st sk).sink.closeCalls = sk.closeCalls + 1
    ∧ (forward_audio events closeFails st sk).raised
        = (forward_audio events false st sk).raised
    ∧ (∀ e, (forward_audio events closeFails st sk).raised = some e →
        (forward_audio events closeFails st sk).exit = ExitReason.raised e) := by
  intro events cf st sk
  refine ⟨?_, rfl, ?_⟩
  · show (end_stream cf (fwdLoop events st sk).2.1).1.closeCalls = sk.closeCalls + 1
    simp only [end_stream]
    rw [fwdLoop_closeCalls]
  · intro e h
    show (fwdLoop events st sk).2.2 = ExitReason.raised e
    have hx : (fwdLoop events st sk).2.2.exn = some e := h
    cases hh : (fwdLoop events st sk).2.2 <;> rw [hh] at hx <;>
      simp only [ExitReason.exn] at hx
    · cases hx
    · cases hx
    · cases hx
    · rw [Option.some.injEq] at hx
      rw [hx]

/-- Witness for `C1_forward_audio_close_once` at a trace whose receive
raises: the close still happens exactly once, and the propagated
exception is the loop's. -/
theorem C1_forward_audio_close_once_witness :
    (forward_audio [LoopEvent.recvExn "boom"] true Stats.init ⟨[], 0⟩).sink.closeCalls = 1
    ∧ (forward_audio [LoopEvent.recvExn "boom"] true Stats.init ⟨[], 0⟩).raised = some "boom"
    ∧ (forward_audio [LoopEvent.recvExn "boom"] true Stats.init ⟨[], 0⟩).exit
        = ExitReason.raised "boom" :=
  ⟨(C1_forward_audio_close_once [LoopEvent.recvExn "boom"] true Stats.init ⟨[], 0⟩).1,
   by decide,
   (C1_forward_audio_close_once [LoopEvent.recvExn "boom"] true Stats.init ⟨[], 0⟩).2.2
     "boom" (by decide)⟩

/-- The loop's effect on the counters: `frames_in` and `bytes_in` grow by
exactly the number and total size of the binary frames in the consumed
prefix of the trace; `partials_out` and `finals_out` are untouched. -/
theorem fwdLoop_counters (events : List LoopEvent) : ∀ (st : Stats) (sk : SinkState),
    (fwdLoop events st sk).1.framesIn
        = st.framesIn + ((consumedEvents events).map binFramesOf).sum
    ∧ (fwdLoop events st sk).1.bytesIn
        = st.bytesIn + ((consumedEvents events).map binBytesOf).sum
    ∧ (fwdLoop events st sk).1.partialsOut = st.partialsOut
    ∧ (fwdLoop events st sk).1.finalsOut = st.finalsOut := by
  induction events with
  | nil =>
    intro st sk
    refine ⟨?_, ?_, rfl, rfl⟩ <;> simp [fwdLoop, consumedEvents]
  | cons e rest ih =>
    intro st sk
    cases e with
    | recvExn e => refine ⟨?_, ?_, rfl, rfl⟩ <;> simp [fwdLoop, consumedEvents, binFramesOf, binBytesOf]
    | sendExn b e =>
      refine ⟨?_, ?_, rfl, rfl⟩ <;> simp [fwdLoop, consumedEvents, binFramesOf, binBytesOf]
    | recv f =>
      cases f with
      | disconnect =>
        refine ⟨?_, ?_, rfl, rfl⟩ <;> simp [fwdLoop, consumedEvents, binFramesOf, binBytesOf]
      | binary b =>
        have h := ih { st with framesIn := st.framesIn + 1, bytesIn := st.bytesIn + b.length }
          { sk with pushed := sk.pushed ++ [b] }
        refine ⟨?_, ?_, h.2.2.1, h.2.2.2⟩
        · rw [show fwdLoop (LoopEvent.recv (InFrame.binary b) :: rest) st sk
              = fwdLoop rest
                  { st with framesIn := st.framesIn + 1, bytesIn := st.bytesIn + b.length }
                  { sk with pushed := sk.pushed ++ [b] } from rfl, h.1]
          simp [consumedEvents, binFramesOf]
          omega
        · rw [show fwdLoop (LoopEvent.recv (InFrame.binary b) :: rest) st sk
              = fwdLoop rest
                  { st with framesIn := st.framesIn + 1, bytesIn := st.bytesIn + b.length }
                  { sk with pushed := sk.pushed ++ [b] } from rfl, h.2.1]
          simp [consumedEvents, binBytesOf]
          omega
      | text s =>
        rw [show fwdLoop (LoopEvent.recv (InFrame.text s) :: rest) st sk
            = (if isEndSignal s then (st, sk, ExitReason.endSignal)
               else fwdLoop rest st sk) from rfl]
        rw [show consumedEvents (LoopEvent.recv (InFrame.text s) :: rest)
            = (if isEndSignal s then [LoopEvent.recv (InFrame.text s)]
               else LoopEvent.recv (InFrame.text s) :: consumedEvents rest) from rfl]
        split
        · refine ⟨?_, ?_, rfl, rfl⟩ <;> simp [binFramesOf, binBytesOf]
        · have h := ih st sk
          refine ⟨?_, ?_, h.2.2.1, h.2.2.2⟩ <;>
            simp [binFramesOf, binBytesOf, h.1, h.2.1]

/-- Unfolding equation for `relayAlts` on a non-empty alternative list. -/
theorem relayAlts_cons_eq (lang : String) (isFinal : Bool) (a : TranscriptAlt)
    (rest : List TranscriptAlt) (st : Stats) :
    relayAlts lang isFinal (a :: rest) st =
      if strTrim (orEmptyStr a.transcript) = "" then relayAlts lang isFinal rest st
      else
        ((relayAlts lang isFinal rest (bumpOut isFinal st)).1,
         { type := if isFinal then "final" else "partial",
           text := strTrim (orEmptyStr a.transcript), language := lang }
           :: (relayAlts lang isFinal rest (bumpOut isFinal st)).2) := rfl

/-- `bumpOut` does not write `frames_in`. -/
theorem bumpOut_framesIn (f : Bool) (st : Stats) : (bumpOut f st).framesIn = st.framesIn := by
  cases f <;> rfl

/-- `bumpOut` does not write `bytes_in`. -/
theorem bumpOut_bytesIn (f : Bool) (st : Stats) : (bumpOut f st).bytesIn = st.bytesIn := by
  cases f <;> rfl

/-- `relayAlts` only touches `partials_out`/`finals_out`. -/
theorem relayAlts_preserves (lang : String) (isFinal : Bool) :
    ∀ (as : List TranscriptAlt) (st : Stats),
    (relayAlts lang isFinal as st).1.framesIn = st.framesIn
    ∧ (relayAlts lang isFinal as st).1.bytesIn = st.bytesIn := by
  intro as
  induction as with
  | nil => intro st; exact ⟨rfl, rfl⟩
  | cons a rest ih =>
    intro st
    rw [relayAlts_cons_eq]
    by_cases hblank : strTrim (orEmptyStr a.transcript) = ""
    · rw [if_pos hblank]
      exact ih st
    · rw [if_neg hblank]
      exact ⟨((ih (bumpOut isFinal st)).1).trans (bumpOut_framesIn isFinal st),
             ((ih (bumpOut isFinal st)).2).trans (bumpOut_bytesIn isFinal st)⟩

/-- `relayResults` only touches `partials_out`/`finals_out`. -/
theorem relayResults_preserves (lang : String) :
    ∀ (rs : List RecResult) (st : Stats),
    (relayResults lang rs st).1.framesIn = st.framesIn
    ∧ (relayResults lang rs st).1.bytesIn = st.bytesIn := by
  intro rs
  induction rs with
  | nil => intro st; exact ⟨rfl, rfl⟩
  | cons r rest ih =>
    intro st
    have h1 := relayAlts_preserves lang (! r.partialFlag) (orEmptyList r.alternatives) st
    have h2 := ih (relayAlts lang (! r.partialFlag) (orEmptyList r.alternatives) st).1
    exact ⟨by rw [show (relayResults lang (r :: rest) st).1
                  = (relayResults lang rest
                      (relayAlts lang (! r.partialFlag) (orEmptyList r.alternatives) st).1).1
                  from rfl, h2.1, h1.1],
           by rw [show (relayResults lang (r :: rest) st).1
                  = (relayResults lang rest
                      (relayAlts lang (! r.partialFlag) (orEmptyList r.alternatives) st).1).1
                  from rfl, h2.2, h1.2]⟩

/-- `relay_transcripts` never writes `frames_in`/`bytes_in`. -/
theorem relay_transcripts_preserves (lang : String) :
    ∀ (events : List UpEvent) (st : Stats),
    (relay_transcripts lang events st).1.framesIn = st.framesIn
    ∧ (relay_transcripts lang events st).1.bytesIn = st.bytesIn := by
  intro events
  induction events with
  | nil => intro st; exact ⟨rfl, rfl⟩
  | cons e rest ih =>
    intro st
    cases e with
    | other => exact ih st
    | transcriptEvent t =>
      have h1 := relayResults_preserves lang (orEmptyList t.results) st
      have h2 := ih (relayResults lang (orEmptyList t.results) st).1
      exact ⟨by rw [show (relay_transcripts lang (UpEvent.transcriptEvent t :: rest) st).1
                    = (relay_transcripts lang rest
                        (relayResults lang (orEmptyList t.results) st).1).1 from rfl,
                    h2.1, h1.1],
             by rw [show (relay_transcripts lang (UpEvent.transcriptEvent t :: rest) st).1
                    = (relay_transcripts lang rest
                        (relayResults lang (orEmptyList t.results) st).1).1 from rfl,
                    h2.2, h1.2]⟩

/-- C5: after `forward_audio` exits, `frames_in` has grown by exactly the
number of binary frames in the consumed trace and `bytes_in` by the sum
of their lengths (so, from zero-initialized stats, they equal that count
and sum); both are monotonically non-decreasing; `forward_audio` never
writes `partials_out`/`finals_out`, and `relay_transcripts` never writes
`frames_in`/`bytes_in` — each counter has a single writer. -/
theorem C5_forward_audio_counters :
    ∀ (events : List LoopEvent) (closeFails : Bool) (st : Stats) (sk : SinkState),
    (forward_audio events closeFails st sk).stats.framesIn
        = st.framesIn + ((consumedEvents events).map binFramesOf).sum
    ∧ (forward_audio events closeFails st sk).stats.bytesIn
        = st.bytesIn + ((consumedEvents events).map binBytesOf).sum
    ∧ st.framesIn ≤ (forward_audio events closeFails st sk).stats.framesIn
    ∧ st.bytesIn ≤ (forward_audio events closeFails st sk).stats.bytesIn
    ∧ (forward_audio events closeFails st sk).stats.partialsOut = st.partialsOut
    ∧ (forward_audio events closeFails st sk).stats.finalsOut = st.finalsOut
    ∧ (∀ (lang : String) (upEvents : List UpEvent),
        (relay_transcripts lang upEvents st).1.framesIn = st.framesIn
        ∧ (relay_transcripts lang upEvents st).1.bytesIn = st.bytesIn) := by
  intro events cf st sk
  have h : (forward_audio events cf st sk).stats = (fwdLoop events st sk).1 := rfl
  have hc := fwdLoop_counters events st sk
  refine ⟨by rw [h, hc.1], by rw [h, hc.2.1], ?_, ?_, by rw [h, hc.2.2.1], by rw [h, hc.2.2.2],
    fun lang upEvents => relay_transcripts_preserves lang upEvents st⟩
  · rw [h, hc.1]; exact Nat.le_add_right _ _
  · rw [h, hc.2.1]; exact Nat.le_add_right _ _

/-- C6: the receive loop stops on a disconnect frame and on a text frame
whose trimmed content equals "END" case-insensitively — "end", " END ",
"END" and "eNd" all stop it — while any other text frame ("abc") is
ignored and the loop continues with the rest of the trace. -/
theorem C6_forward_audio_end_conditions :
    ∀ (s : String) (rest : List LoopEvent) (st : Stats) (sk : SinkState),
    fwdLoop (LoopEvent.recv (InFrame.text s) :: rest) st sk
      = (if isEndSignal s then (st, sk, ExitReason.endSignal) else fwdLoop rest st sk)
    ∧ fwdLoop (LoopEvent.recv InFrame.disconnect :: rest) st sk
      = (st, sk, ExitReason.disconnect)
    ∧ isEndSignal "end" = true
    ∧ isEndSignal " END " = true
    ∧ isEndSignal "END" = true
    ∧ isEndSignal "eNd" = true
    ∧ isEndSignal "abc" = false := by
  intro s rest st sk
  exact ⟨rfl, rfl, by decide, by decide, by decide, by decide, by decide⟩

/-- A non-empty `dropWhile p` result contains an element falsifying `p`
(its head). -/
theorem exists_not_of_dropWhile_ne_nil (p : Char → Bool) (l : List Char)
    (h : List.dropWhile p l ≠ []) :
    ∃ c ∈ List.dropWhile p l, p c = false := by
  induction l with
  | nil => exact absurd rfl h
  | cons a l ih =>
    rw [List.dropWhile_cons] at h ⊢
    by_cases hp : p a
    · rw [if_pos hp] at h ⊢
      exact ih h
    · rw [if_neg hp]
      exact ⟨a, List.mem_cons_self a l, Bool.eq_false_iff.mpr hp⟩

/-- A non-empty trimmed string is not whitespace-only: some character of it
falsifies `Char.isWhitespace`. -/
theorem strTrim_not_blank (s : String) (h : strTrim s ≠ "") :
    (strTrim s).data.all Char.isWhitespace = false := by
  have hdata : (strTrim s).data
      = (((s.data.dropWhile Char.isWhitespace).reverse.dropWhile Char.isWhitespace).reverse) := rfl
  have hne : ((s.data.dropWhile Char.isWhitespace).reverse.dropWhile Char.isWhitespace) ≠ [] := by
    intro hnil
    apply h
    show String.mk (((s.data.dropWhile Char.isWhitespace).reverse.dropWhile
        Char.isWhitespace).reverse) = ""
    rw [hnil]
    rfl
  obtain ⟨c, hc, hcp⟩ := exists_not_of_dropWhile_ne_nil Char.isWhitespace
    (s.data.dropWhile Char.isWhitespace).reverse hne
  rw [hdata, List.all_eq_false]
  exact ⟨c, List.mem_reverse.mpr hc, by simp [hcp]⟩

/-- Any member of `msgsOfAlt` is the fully determined payload of a
non-blank alternative. -/
theorem mem_msgsOfAlt (lang : String) (isFinal : Bool) (a : TranscriptAlt) (m : OutMsg)
    (h : m ∈ msgsOfAlt lang isFinal a) :
    m = { type := if isFinal then "final" else "partial",
          text := strTrim (orEmptyStr a.transcript), language := lang }
    ∧ strTrim (orEmptyStr a.transcript) ≠ "" := by
  unfold msgsOfAlt at h
  by_cases hb : strTrim (orEmptyStr a.transcript) = ""
  · rw [if_pos hb] at h
    cases h
  · rw [if_neg hb] at h
    rcases List.mem_singleton.mp h with rfl
    exact ⟨rfl, hb⟩

/-- The payload list of `relayAlts` does not depend on the incoming stats
and equals the order-preserving flattening `msgsOfAlt`. -/
theorem relayAlts_msgs (lang : String) (isFinal : Bool) :
    ∀ (as : List TranscriptAlt) (st : Stats),
    (relayAlts lang isFinal as st).2 = as.flatMap (msgsOfAlt lang isFinal) := by
  intro as
  induction as with
  | nil => intro st; rfl
  | cons a rest ih =>
    intro st
    rw [relayAlts_cons_eq, List.flatMap_cons]
    by_cases hb : strTrim (orEmptyStr a.transcript) = ""
    · rw [if_pos hb, ih st]
      unfold msgsOfAlt
      rw [if_pos hb, List.nil_append]
    · rw [if_neg hb]
      show _ :: (relayAlts lang isFinal rest (bumpOut isFinal st)).2 = _
      rw [ih (bumpOut isFinal st)]
      unfold msgsOfAlt
      rw [if_neg hb, List.singleton_append]

/-- The payload list of `relayResults` equals the order-preserving
flattening over results then alternatives. -/
theorem relayResults_msgs (lang : String) :
    ∀ (rs : List RecResult) (st : Stats),
    (relayResults lang rs st).2
      = rs.flatMap (fun r =>
          (orEmptyList r.alternatives).flatMap (msgsOfAlt lang (! r.partialFlag))) := by
  intro rs
  induction rs with
  | nil => intro st; rfl
  | cons r rest ih =>
    intro st
    show (relayAlts lang (! r.partialFlag) (orEmptyList r.alternatives) st).2
        ++ (relayResults lang rest _).2 = _
    rw [List.flatMap_cons, relayAlts_msgs, ih]

/-- The payload list of `relay_transcripts` equals the order-preserving
flattening `msgsOfEvent` over the upstream event sequence. -/
theorem relay_transcripts_msgs (lang : String) :
    ∀ (events : List UpEvent) (st : Stats),
    (relay_transcripts lang events st).2 = events.flatMap (msgsOfEvent lang) := by
  intro events
  induction events with
  | nil => intro st; rfl
  | cons e rest ih =>
    intro st
    cases e with
    | other =>
      rw [List.flatMap_cons]
      show (relay_transcripts lang rest st).2 = _
      rw [ih st]
      rfl
    | transcriptEvent t =>
      rw [List.flatMap_cons]
      show (relayResults lang (orEmptyList t.results) st).2
          ++ (relay_transcripts lang rest _).2 = _
      rw [relayResults_msgs, ih]
      rfl

/-- C2: `relay_transcripts` never emits a payload whose `text` is empty or
whitespace-only (some character of every emitted `text` is
non-whitespace), and an alternative whose trimmed transcript is blank is
skipped outright — it contributes neither a payload nor a counter
update. -/
theorem C2_no_blank_text :
    ∀ (lang : String) (events : List UpEvent) (st : Stats),
    (∀ m, m ∈ (relay_transcripts lang events st).2 →
      m.text.data.all Char.isWhitespace = false ∧ m.text ≠ "")
    ∧ (∀ (isFinal : Bool) (a : TranscriptAlt) (rest : List TranscriptAlt) (st2 : Stats),
        strTrim (orEmptyStr a.transcript) = "" →
        relayAlts lang isFinal (a :: rest) st2 = relayAlts lang isFinal rest st2) := by
  intro lang events st
  constructor
  · intro m hm
    rw [relay_transcripts_msgs, List.mem_flatMap] at hm
    obtain ⟨e, _, hme⟩ := hm
    cases e with
    | other => cases hme
    | transcriptEvent t =>
      unfold msgsOfEvent at hme
      rw [List.mem_flatMap] at hme
      obtain ⟨r, _, hmr⟩ := hme
      rw [List.mem_flatMap] at hmr
      obtain ⟨a, _, hma⟩ := hmr
      obtain ⟨rfl, hnb⟩ := mem_msgsOfAlt lang (! r.partialFlag) a m hma
      exact ⟨strTrim_not_blank _ hnb, hnb⟩
  · intro isFinal a rest st2 hb
    rw [relayAlts_cons_eq, if_pos hb]

/-- Witness for `C2_no_blank_text`: a transcript event with one blank and
one non-blank alternative yields exactly one payload, whose text "bonjour"
is not whitespace-only; the blank alternative is skipped. -/
theorem C2_no_blank_text_witness :
    ({ type := "final", text := "bonjour", language := "fr-FR" } : OutMsg)
      ∈ (relay_transcripts "fr-FR"
          [UpEvent.transcriptEvent ⟨some [⟨false, some [⟨some "   "⟩, ⟨some " bonjour "⟩]⟩]⟩]
          Stats.init).2
    ∧ ("bonjour".data.all Char.isWhitespace = false ∧ ("bonjour" : String) ≠ "")
    ∧ strTrim (orEmptyStr (⟨some "   "⟩ : TranscriptAlt).transcript) = ""
    ∧ relayAlts "fr-FR" true [⟨some "   "⟩, ⟨some " bonjour "⟩] Stats.init
        = relayAlts "fr-FR" true [⟨some " bonjour "⟩] Stats.init :=
  ⟨by decide,
   (C2_no_blank_text "fr-FR"
      [UpEvent.transcriptEvent ⟨some [⟨false, some [⟨some "   "⟩, ⟨some " bonjour "⟩]⟩]⟩]
      Stats.init).1 { type := "final", text := "bonjour", language := "fr-FR" } (by decide),
   by decide,
   (C2_no_blank_text "fr-FR" [] Stats.init).2 true ⟨some "   "⟩ [⟨some " bonjour "⟩]
     Stats.init (by decide)⟩

/-- C8: the payloads of `relay_transcripts` are exactly the order-preserving
flattening of the upstream events (events in order, results within an
event in order, alternatives within a result in order — sends are
sequential, each completing before the next event is consumed); every
payload carries the session's language code and has kind "final" or
"partial"; and a payload built from a result has kind "final" exactly
when that result's partial flag is false. -/
theorem C8_relay_order_and_kinds :
    ∀ (lang : String) (events : List UpEvent) (st : Stats),
    (relay_transcripts lang events st).2 = events.flatMap (msgsOfEvent lang)
    ∧ (∀ m, m ∈ (relay_transcripts lang events st).2 →
        m.language = lang ∧ (m.type = "final" ∨ m.type = "partial"))
    ∧ (∀ (r : RecResult) (a : TranscriptAlt) (m : OutMsg),
        m ∈ msgsOfAlt lang (! r.partialFlag) a →
        ((m.type = "final" ↔ r.partialFlag = false)
          ∧ (m.type = "partial" ↔ r.partialFlag = true))) := by
  intro lang events st
  refine ⟨relay_transcripts_msgs lang events st, ?_, ?_⟩
  · intro m hm
    rw [relay_transcripts_msgs, List.mem_flatMap] at hm
    obtain ⟨e, _, hme⟩ := hm
    cases e with
    | other => cases hme
    | transcriptEvent t =>
      unfold msgsOfEvent at hme
      rw [List.mem_flatMap] at hme
      obtain ⟨r, _, hmr⟩ := hme
      rw [List.mem_flatMap] at hmr
      obtain ⟨a, _, hma⟩ := hmr
      obtain ⟨rfl, -⟩ := mem_msgsOfAlt lang (! r.partialFlag) a m hma
      refine ⟨rfl, ?_⟩
      by_cases hp : r.partialFlag
      · rw [hp]
        exact Or.inr rfl
      · rw [Bool.eq_false_iff.mpr hp]
        exact Or.inl rfl
  · intro r a m hma
    obtain ⟨rfl, -⟩ := mem_msgsOfAlt lang (! r.partialFlag) a m hma
    by_cases hp : r.partialFlag
    · rw [hp]
      exact ⟨⟨fun h => absurd h (show ¬ ("partial" : String) = "final" by decide),
              fun h => absurd h (show ¬ true = false by decide)⟩,
             ⟨fun _ => rfl, fun _ => rfl⟩⟩
    · rw [Bool.eq_false_iff.mpr hp]
      exact ⟨⟨fun _ => rfl, fun _ => rfl⟩,
             ⟨fun h => absurd h (show ¬ ("final" : String) = "partial" by decide),
              fun h => absurd h (show ¬ false = true by decide)⟩⟩

/-- Witness for `C8_relay_order_and_kinds`: a partial then a final result
yield the two payloads in order with the right kinds and language. -/
theorem C8_relay_order_and_kinds_witness :
    ({ type := "partial", text := "bon", language := "fr-FR" } : OutMsg)
      ∈ (relay_transcripts "fr-FR"
          [UpEvent.transcriptEvent ⟨some [⟨true, some [⟨some "bon"⟩]⟩,
                                          ⟨false, some [⟨some "bonjour"⟩]⟩]⟩]
          Stats.init).2
    ∧ (({ type := "partial", text := "bon", language := "fr-FR" } : OutMsg).language = "fr-FR"
        ∧ (({ type := "partial", text := "bon", language := "fr-FR" } : OutMsg).type = "final"
            ∨ ({ type := "partial", text := "bon", language := "fr-FR" } : OutMsg).type = "partial"))
    ∧ (relay_transcripts "fr-FR"
        [UpEvent.transcriptEvent ⟨some [⟨true, some [⟨some "bon"⟩]⟩,
                                        ⟨false, some [⟨some "bonjour"⟩]⟩]⟩]
        Stats.init).2
      = [{ type := "partial", text := "bon", language := "fr-FR" },
         { type := "final", text := "bonjour", language := "fr-FR" }] :=
  ⟨by decide,
   (C8_relay_order_and_kinds "fr-FR"
      [UpEvent.transcriptEvent ⟨some [⟨true, some [⟨some "bon"⟩]⟩,
                                      ⟨false, some [⟨some "bonjour"⟩]⟩]⟩]
      Stats.init).2.1 { type := "partial", text := "bon", language := "fr-FR" } (by decide),
   by decide⟩

/-- C10: an upstream event that is not a `TranscriptEvent` produces no
payload and leaves the stats — `partials_out` and `finals_out`
included — unchanged; consumption continues with the rest of the
stream. -/
theorem C10_non_transcript_event_skipped :
    ∀ (lang : String) (rest : List UpEvent) (st : Stats),
    relay_transcripts lang (UpEvent.other :: rest) st = relay_transcripts lang rest st
    ∧ (relay_transcripts lang [UpEvent.other] st).1 = st
    ∧ (relay_transcripts lang [UpEvent.other] st).2 = [] := by
  intro lang rest st
  exact ⟨rfl, rfl, rfl⟩

/-- C7: when opening the upstream session fails, or the streaming phase
raises anything other than a `WebSocketDisconnect`, exactly one
best-effort error payload send is attempted (its own failure swallowed)
and exactly one close of the client connection is attempted (its failure
also swallowed), and nothing escapes the handler; when the open fails the
forwarder/relay tasks are never started; and on a client disconnect no
error payload is ever sent. -/
theorem C7_session_error_handling :
    ∀ (openExn : Option String) (body : BodyOutcome) (sendErrFails closeFails : Bool),
    (∀ e, openExn = some e →
      ws_transcribe openExn body sendErrFails closeFails
        = { tasksStarted := false, errorSendAttempts := 1,
            errorSendDelivered := ! sendErrFails, closeAttempts := 1,
            closeDelivered := ! closeFails, raised := none })
    ∧ (∀ e, openExn = none → body = BodyOutcome.failure e →
        (ws_transcribe openExn body sendErrFails closeFails).errorSendAttempts = 1
        ∧ (ws_transcribe openExn body sendErrFails closeFails).closeAttempts = 1
        ∧ (ws_transcribe openExn body sendErrFails closeFails).raised = none)
    ∧ (openExn = none → body = BodyOutcome.disconnect →
        (ws_transcribe openExn body sendErrFails closeFails).errorSendAttempts = 0
        ∧ (ws_transcribe openExn body sendErrFails closeFails).raised = none)
    ∧ (ws_transcribe openExn body sendErrFails closeFails).raised = none := by
  intro openExn body sf cf
  refine ⟨?_, ?_, ?_, ?_⟩
  · rintro e rfl
    rfl
  · rintro e rfl rfl
    exact ⟨rfl, rfl, rfl⟩
  · rintro rfl rfl
    exact ⟨rfl, rfl⟩
  · cases openExn with
    | some e => rfl
    | none => cases body <;> rfl

/-- Witness for `C7_session_error_handling`: an open failure with a failing
error-send, a streaming failure, and a disconnect, each at concrete
inputs. -/
theorem C7_session_error_handling_witness :
    ws_transcribe (some "UpstreamUnavailable") BodyOutcome.ok true false
      = { tasksStarted := false, errorSendAttempts := 1, errorSendDelivered := false,
          closeAttempts := 1, closeDelivered := true, raised := none }
    ∧ ((ws_transcribe none (BodyOutcome.failure "stream-error") false false).errorSendAttempts = 1
        ∧ (ws_transcribe none (BodyOutcome.failure "stream-error") false false).closeAttempts = 1
        ∧ (ws_transcribe none (BodyOutcome.failure "stream-error") false false).raised = none)
    ∧ ((ws_transcribe none BodyOutcome.disconnect false false).errorSendAttempts = 0
        ∧ (ws_transcribe none BodyOutcome.disconnect false false).raised = none) :=
  ⟨(C7_session_error_handling (some "UpstreamUnavailable") BodyOutcome.ok true false).1
      "UpstreamUnavailable" rfl,
   (C7_session_error_handling none (BodyOutcome.failure "stream-error") false false).2.1
      "stream-error" rfl rfl,
   (C7_session_error_handling none BodyOutcome.disconnect false false).2.2.1 rfl rfl⟩

end MedAI
